import Mathlib

/-!
Shallow embedding of the Solana ledger program in src/program/src/lib.rs.

The program stores, per account, a 16-byte record (two little-endian u64
fields: a counter called number, and a balance) and processes three
commands (Deposit, Withdraw, CheckBalance) carried by a bincode-encoded
CommandInstruction together with an intended owner pubkey.

Modelling conventions:
- byte buffers are List Nat (well-formed buffers have every entry < 256);
- u64 values are Nat, reduced modulo 2 ^ 64 exactly where the Rust release
  arithmetic wraps;
- each distinct error return site of process_instruction gets its own
  constructor of PError, named as the specification names that site.  The
  Rust values actually returned are recorded by PError.toProgramError;
- the copy_from_slice panic (destination and source length differ) is the
  PError.Panic outcome;
- bincode's free deserialize function uses fixed-width little-endian
  integer encoding, a u32 enum tag, and allows trailing bytes.
-/

namespace Ledger

/-- u64 modulus. -/
def U64MOD : Nat := 2 ^ 64

/-- A 32-byte public key, as its byte list. -/
abbrev Pubkey := List Nat

/-- The persisted account record (Rust struct Data: number, balance). -/
structure Data where
  number : Nat
  balance : Nat
  deriving Repr, DecidableEq

/-- The command variants (Rust enum Command). -/
inductive Command where
  | Deposit (amount : Nat)
  | Withdraw (amount : Nat)
  | CheckBalance
  deriving Repr, DecidableEq

/-- The decoded wire payload (Rust struct CommandInstruction: command, program_id). -/
structure CommandInstruction where
  command : Command
  program_id : Pubkey
  deriving Repr, DecidableEq

/-- The slice of AccountInfo the program reads: writable flag, owner, data buffer. -/
structure AccountInfo where
  is_writable : Bool
  owner : Pubkey
  data : List Nat
  deriving Repr, DecidableEq

/-- The Rust ProgramError values the program returns. -/
inductive ProgramError where
  | InvalidAccountData
  | IncorrectProgramId
  | InvalidInstructionData
  | InsufficientFunds
  | NotEnoughAccountKeys
  deriving Repr, DecidableEq

/-- One constructor per distinct failure site of process_instruction, named as
the specification names that site.  Panic is the copy_from_slice length
mismatch, which aborts the instruction without returning a ProgramError. -/
inductive PError where
  | MissingAccount
  | NotWritable
  | IncorrectOwner
  | MalformedInstruction
  | InvalidParameters
  | MalformedRecord
  | InsufficientFunds
  | Panic
  deriving Repr, DecidableEq

/-- The ProgramError value the Rust code returns at each failure site
(Panic raises no ProgramError, the instruction aborts). -/
def PError.toProgramError : PError → Option ProgramError
  | .MissingAccount => some .NotEnoughAccountKeys
  | .NotWritable => some .InvalidAccountData
  | .IncorrectOwner => some .IncorrectProgramId
  | .MalformedInstruction => some .InvalidAccountData
  | .InvalidParameters => some .InvalidInstructionData
  | .MalformedRecord => some .InvalidAccountData
  | .InsufficientFunds => some .InsufficientFunds
  | .Panic => none

/-- Little-endian fixed 4-byte encoding of a u32 (bincode fixint). -/
def u32ToBytes (n : Nat) : List Nat :=
  [n % 256, n / 256 % 256, n / 256 ^ 2 % 256, n / 256 ^ 3 % 256]

/-- Little-endian fixed 8-byte encoding of a u64 (bincode fixint). -/
def u64ToBytes (n : Nat) : List Nat :=
  [n % 256, n / 256 % 256, n / 256 ^ 2 % 256, n / 256 ^ 3 % 256,
   n / 256 ^ 4 % 256, n / 256 ^ 5 % 256, n / 256 ^ 6 % 256, n / 256 ^ 7 % 256]

/-- Read a little-endian u32 from the front of a buffer; fails when fewer
than 4 bytes remain. -/
def readU32 (bs : List Nat) : Option (Nat × List Nat) :=
  match bs with
  | b0 :: b1 :: b2 :: b3 :: rest =>
      some (b0 + 256 * (b1 + 256 * (b2 + 256 * b3)), rest)
  | _ => none

/-- Read a little-endian u64 from the front of a buffer; fails when fewer
than 8 bytes remain. -/
def readU64 (bs : List Nat) : Option (Nat × List Nat) :=
  match bs with
  | b0 :: b1 :: b2 :: b3 :: b4 :: b5 :: b6 :: b7 :: rest =>
      some (b0 + 256 * (b1 + 256 * (b2 + 256 * (b3 + 256 * (b4 + 256 *
        (b5 + 256 * (b6 + 256 * b7)))))), rest)
  | _ => none

/-- Read a 32-byte pubkey from the front of a buffer. -/
def readPubkey (bs : List Nat) : Option (Pubkey × List Nat) :=
  if 32 ≤ bs.length then some (bs.take 32, bs.drop 32) else none

/-- bincode deserialize of CommandInstruction: a u32 variant tag (0 Deposit,
1 Withdraw, 2 CheckBalance, anything else is an invalid variant index),
the u64 amount for Deposit and Withdraw, then the 32-byte program_id.
The free bincode::deserialize allows trailing bytes. -/
def decode_instruction (bs : List Nat) : Option CommandInstruction :=
  match readU32 bs with
  | none => none
  | some (tag, rest) =>
    if tag = 0 then
      match readU64 rest with
      | none => none
      | some (amount, rest2) =>
        match readPubkey rest2 with
        | none => none
        | some (pk, _) => some ⟨Command.Deposit amount, pk⟩
    else if tag = 1 then
      match readU64 rest with
      | none => none
      | some (amount, rest2) =>
        match readPubkey rest2 with
        | none => none
        | some (pk, _) => some ⟨Command.Withdraw amount, pk⟩
    else if tag = 2 then
      match readPubkey rest with
      | none => none
      | some (pk, _) => some ⟨Command.CheckBalance, pk⟩
    else none

/-- bincode serialize of CommandInstruction (canonical form, no trailing bytes). -/
def encode_instruction (i : CommandInstruction) : List Nat :=
  match i.command with
  | Command.Deposit amount => u32ToBytes 0 ++ u64ToBytes amount ++ i.program_id
  | Command.Withdraw amount => u32ToBytes 1 ++ u64ToBytes amount ++ i.program_id
  | Command.CheckBalance => u32ToBytes 2 ++ i.program_id

/-- bincode deserialize of Data: two little-endian u64 fields in order
(number then balance); trailing bytes are allowed. -/
def decode_record (bs : List Nat) : Option Data :=
  match readU64 bs with
  | none => none
  | some (number, rest) =>
    match readU64 rest with
    | none => none
    | some (balance, _) => some ⟨number, balance⟩

/-- bincode serialize of Data: 8 bytes number then 8 bytes balance. -/
def encode_record (d : Data) : List Nat :=
  u64ToBytes d.number ++ u64ToBytes d.balance

/-- The zero-amount parameter check applied to Deposit and Withdraw
(lines 40-54 of lib.rs); CheckBalance has no parameters. -/
def zeroAmount : Command → Bool
  | Command.Deposit amount => amount == 0
  | Command.Withdraw amount => amount == 0
  | Command.CheckBalance => false

/-- Read the existing record, or a zero-valued one when the slot is empty
(lines 61-68 of lib.rs). -/
def load_or_init (bs : List Nat) : Option Data :=
  if bs.length = 0 then some ⟨0, 0⟩ else decode_record bs

/-- The command application step (lines 70-85 of lib.rs).  Deposit is the
Rust release-mode balance += amount, which wraps modulo 2 ^ 64; Withdraw
checks amount > balance first; CheckBalance only logs. -/
def applyCommand (c : Command) (d : Data) : Except PError Data :=
  match c with
  | Command.Deposit amount => Except.ok ⟨d.number, (d.balance + amount) % U64MOD⟩
  | Command.Withdraw amount =>
      if d.balance < amount then Except.error PError.InsufficientFunds
      else Except.ok ⟨d.number, d.balance - amount⟩
  | Command.CheckBalance => Except.ok d

/-- process_instruction of lib.rs.  Returns the bytes written back to the
account slot on success, and the failure site otherwise.  The checks run in
source order: account extraction, writability, owner against program_id,
instruction decode, zero-amount validation, owner against the decoded
program_id, load-or-init, apply, then serialize and copy_from_slice (which
panics unless the lengths agree). -/
def process_instruction (program_id : Pubkey) (accounts : List AccountInfo)
    (instruction_data : List Nat) : Except PError (List Nat) :=
  match accounts with
  | [] => Except.error PError.MissingAccount
  | account :: _ =>
    if account.is_writable = false then Except.error PError.NotWritable
    else if account.owner ≠ program_id then Except.error PError.IncorrectOwner
    else
      match decode_instruction instruction_data with
      | none => Except.error PError.MalformedInstruction
      | some instruction =>
        if zeroAmount instruction.command then Except.error PError.InvalidParameters
        else if account.owner ≠ instruction.program_id then
          Except.error PError.IncorrectOwner
        else
          match load_or_init account.data with
          | none => Except.error PError.MalformedRecord
          | some data =>
            match applyCommand instruction.command data with
            | Except.error e => Except.error e
            | Except.ok data2 =>
              let serialized := encode_record data2
              if serialized.length = account.data.length then Except.ok serialized
              else Except.error PError.Panic

/-- The slot contents after the instruction: the written bytes on success,
the unchanged prior bytes on any failure. -/
def resulting_data (a : AccountInfo) (r : Except PError (List Nat)) : List Nat :=
  match r with
  | Except.ok new => new
  | Except.error _ => a.data

/-- Parameter well-formedness of a command at the typed level: a positive
amount that fits in a u64 for Deposit and Withdraw, nothing for CheckBalance. -/
def cmdParamsOK : Command → Prop
  | Command.Deposit amount => 0 < amount ∧ amount < U64MOD
  | Command.Withdraw amount => 0 < amount ∧ amount < U64MOD
  | Command.CheckBalance => True

instance : DecidablePred cmdParamsOK := by
  intro c
  cases c <;> simp [cmdParamsOK] <;> infer_instance

/-- Amounts carried by a command fit in a u64. -/
def cmdAmountLT : Command → Prop
  | Command.Deposit amount => amount < U64MOD
  | Command.Withdraw amount => amount < U64MOD
  | Command.CheckBalance => True

instance : DecidablePred cmdAmountLT := by
  intro c
  cases c <;> simp [cmdAmountLT] <;> infer_instance

theorem u64ToBytes_length (n : Nat) : (u64ToBytes n).length = 8 := by
  simp [u64ToBytes]

theorem encode_record_length (d : Data) : (encode_record d).length = 16 := by
  simp [encode_record, u64ToBytes]

theorem readU64_u64ToBytes (n : Nat) (rest : List Nat) (h : n < U64MOD) :
    readU64 (u64ToBytes n ++ rest) = some (n, rest) := by
  simp only [u64ToBytes, List.cons_append, List.nil_append, readU64]
  simp only [U64MOD] at h
  congr 1
  congr 1
  omega

theorem readPubkey_append (pk rest : List Nat) (h : pk.length = 32) :
    readPubkey (pk ++ rest) = some (pk, rest) := by
  simp [readPubkey, h, List.take_left', List.drop_left', le_add_right]

theorem readPubkey_exact (pk : List Nat) (h : pk.length = 32) :
    readPubkey pk = some (pk, []) := by
  have := readPubkey_append pk [] h
  simpa using this

theorem readU64_u64ToBytes_exact (n : Nat) (h : n < U64MOD) :
    readU64 (u64ToBytes n) = some (n, []) := by
  have := readU64_u64ToBytes n [] h
  simpa using this

theorem decode_encode_record (d : Data) (hn : d.number < U64MOD)
    (hb : d.balance < U64MOD) : decode_record (encode_record d) = some d := by
  obtain ⟨n, b⟩ := d
  simp only [encode_record, decode_record]
  rw [readU64_u64ToBytes n (u64ToBytes b) hn]
  simp [readU64_u64ToBytes_exact b hb]

theorem decode_encode_instruction (i : CommandInstruction)
    (hpk : i.program_id.length = 32) (ha : cmdAmountLT i.command) :
    decode_instruction (encode_instruction i) = some i := by
  obtain ⟨cmd, pk⟩ := i
  cases cmd with
  | Deposit amount =>
      simp only [cmdAmountLT] at ha
      simp only [encode_instruction, u32ToBytes, decode_instruction]
      norm_num [readU32]
      rw [readU64_u64ToBytes amount pk ha]
      simp [readPubkey_exact pk hpk]
  | Withdraw amount =>
      simp only [cmdAmountLT] at ha
      simp only [encode_instruction, u32ToBytes, decode_instruction]
      norm_num [readU32]
      rw [readU64_u64ToBytes amount pk ha]
      simp [readPubkey_exact pk hpk]
  | CheckBalance =>
      simp only [encode_instruction, u32ToBytes, decode_instruction]
      norm_num [readU32]
      rw [readPubkey_exact pk hpk]

theorem readU64_bytes (bs : List Nat) (v : Nat) (rest : List Nat)
    (h : readU64 bs = some (v, rest)) (hb : ∀ b ∈ bs, b < 256) :
    v < U64MOD ∧ (∀ b ∈ rest, b < 256) ∧ u64ToBytes v ++ rest = bs := by
  rcases bs with _ | ⟨b0, _ | ⟨b1, _ | ⟨b2, _ | ⟨b3, _ | ⟨b4, _ | ⟨b5, _ | ⟨b6, _ | ⟨b7, r⟩⟩⟩⟩⟩⟩⟩⟩ <;>
    simp only [readU64, Option.some.injEq, Prod.mk.injEq, reduceCtorEq] at h
  obtain ⟨hv, hr⟩ := h
  subst hv
  subst hr
  have h0 : b0 < 256 := hb b0 (by simp)
  have h1 : b1 < 256 := hb b1 (by simp)
  have h2 : b2 < 256 := hb b2 (by simp)
  have h3 : b3 < 256 := hb b3 (by simp)
  have h4 : b4 < 256 := hb b4 (by simp)
  have h5 : b5 < 256 := hb b5 (by simp)
  have h6 : b6 < 256 := hb b6 (by simp)
  have h7 : b7 < 256 := hb b7 (by simp)
  have hmod : U64MOD = 18446744073709551616 := by norm_num [U64MOD]
  refine ⟨by rw [hmod]; omega, ?_, ?_⟩
  · intro b hbm
    exact hb b (by simp [hbm])
  · simp only [u64ToBytes, List.cons_append, List.nil_append, List.cons.injEq]
    norm_num
    omega

theorem decode_record_bytes (bs : List Nat) (d : Data)
    (h : decode_record bs = some d) (hb : ∀ b ∈ bs, b < 256) :
    d.number < U64MOD ∧ d.balance < U64MOD ∧
      (bs.length = 16 → encode_record d = bs) := by
  unfold decode_record at h
  cases h1 : readU64 bs with
  | none => simp only [h1, reduceCtorEq] at h
  | some p =>
    obtain ⟨n, rest⟩ := p
    simp only [h1] at h
    cases h2 : readU64 rest with
    | none => simp only [h2, reduceCtorEq] at h
    | some q =>
      obtain ⟨bal, rest2⟩ := q
      simp only [h2, Option.some.injEq] at h
      subst h
      obtain ⟨hn, hrest, hsplit⟩ := readU64_bytes bs n rest h1 hb
      obtain ⟨hbal, hrest2, hsplit2⟩ := readU64_bytes rest bal rest2 h2 hrest
      refine ⟨hn, hbal, ?_⟩
      intro hlen
      have hl1 : rest.length = 8 := by
        have := congrArg List.length hsplit
        simp [u64ToBytes] at this
        omega
      have hl2 : rest2.length = 0 := by
        have := congrArg List.length hsplit2
        simp [u64ToBytes] at this
        omega
      have hr2 : rest2 = [] := List.length_eq_zero.mp hl2
      subst hr2
      simp only [List.append_nil] at hsplit2
      simp only [encode_record]
      rw [hsplit2, hsplit]

theorem load_or_init_bytes (bs : List Nat) (d : Data)
    (h : load_or_init bs = some d) (hb : ∀ b ∈ bs, b < 256) :
    d.number < U64MOD ∧ d.balance < U64MOD ∧
      (bs.length = 16 → encode_record d = bs) := by
  unfold load_or_init at h
  split at h
  · simp only [Option.some.injEq] at h
    subst h
    refine ⟨by norm_num [U64MOD], by norm_num [U64MOD], ?_⟩
    intro hlen
    omega
  · exact decode_record_bytes bs d h hb

theorem applyCommand_number (c : Command) (d d2 : Data)
    (h : applyCommand c d = Except.ok d2) : d2.number = d.number := by
  cases c with
  | Deposit a =>
      simp only [applyCommand, Except.ok.injEq] at h
      subst h
      rfl
  | Withdraw a =>
      simp only [applyCommand] at h
      split at h
      · simp only [reduceCtorEq] at h
      · simp only [Except.ok.injEq] at h
        subst h
        rfl
  | CheckBalance =>
      simp only [applyCommand, Except.ok.injEq] at h
      subst h
      rfl

theorem applyCommand_balance_lt (c : Command) (d d2 : Data)
    (hd : d.balance < U64MOD) (h : applyCommand c d = Except.ok d2) :
    d2.balance < U64MOD := by
  cases c with
  | Deposit a =>
      simp only [applyCommand, Except.ok.injEq] at h
      subst h
      exact Nat.mod_lt _ (by norm_num [U64MOD])
  | Withdraw a =>
      simp only [applyCommand] at h
      split at h
      · simp only [reduceCtorEq] at h
      · simp only [Except.ok.injEq] at h
        subst h
        simp only
        omega
  | CheckBalance =>
      simp only [applyCommand, Except.ok.injEq] at h
      subst h
      exact hd

theorem readU32_eq_none (bs : List Nat) (h : bs.length < 4) : readU32 bs = none := by
  rcases bs with _ | ⟨b0, _ | ⟨b1, _ | ⟨b2, _ | ⟨b3, r⟩⟩⟩⟩
  · rfl
  · rfl
  · rfl
  · rfl
  · simp at h
    omega

theorem readU32_length (bs : List Nat) (t : Nat) (r : List Nat)
    (h : readU32 bs = some (t, r)) : bs.length = r.length + 4 := by
  rcases bs with _ | ⟨b0, _ | ⟨b1, _ | ⟨b2, _ | ⟨b3, r2⟩⟩⟩⟩ <;>
    simp only [readU32, Option.some.injEq, Prod.mk.injEq, reduceCtorEq] at h
  obtain ⟨-, hr⟩ := h
  subst hr
  simp

theorem readU64_eq_none (bs : List Nat) (h : bs.length < 8) : readU64 bs = none := by
  rcases bs with _ | ⟨b0, _ | ⟨b1, _ | ⟨b2, _ | ⟨b3, _ | ⟨b4, _ | ⟨b5, _ | ⟨b6, _ | ⟨b7, r⟩⟩⟩⟩⟩⟩⟩⟩
  · rfl
  · rfl
  · rfl
  · rfl
  · rfl
  · rfl
  · rfl
  · rfl
  · simp at h
    omega

theorem readU64_total (bs : List Nat) (h : 8 ≤ bs.length) :
    ∃ v rest, readU64 bs = some (v, rest) := by
  rcases bs with _ | ⟨b0, _ | ⟨b1, _ | ⟨b2, _ | ⟨b3, _ | ⟨b4, _ | ⟨b5, _ | ⟨b6, _ | ⟨b7, r⟩⟩⟩⟩⟩⟩⟩⟩ <;>
    simp at h ⊢
  exact ⟨_, _, rfl⟩

theorem readU64_length (bs : List Nat) (v : Nat) (rest : List Nat)
    (h : readU64 bs = some (v, rest)) : bs.length = rest.length + 8 := by
  rcases bs with _ | ⟨b0, _ | ⟨b1, _ | ⟨b2, _ | ⟨b3, _ | ⟨b4, _ | ⟨b5, _ | ⟨b6, _ | ⟨b7, r⟩⟩⟩⟩⟩⟩⟩⟩ <;>
    simp only [readU64, Option.some.injEq, Prod.mk.injEq, reduceCtorEq] at h
  obtain ⟨-, hr⟩ := h
  subst hr
  simp

theorem readPubkey_eq_none (bs : List Nat) (h : bs.length < 32) :
    readPubkey bs = none := by
  simp [readPubkey]
  omega

theorem bool_not_false (b : Bool) (h : ¬ b = false) : b = true := by
  cases b
  · exact absurd rfl h
  · rfl

/-- Inversion of a successful run of process_instruction: every check passed,
the slot held exactly 16 bytes, and the written bytes are the encoding of the
applied record. -/
theorem process_ok_inv (pid : Pubkey) (a : AccountInfo) (tl : List AccountInfo)
    (bytes out : List Nat)
    (h : process_instruction pid (a :: tl) bytes = Except.ok out) :
    a.is_writable = true ∧ a.owner = pid ∧
    ∃ i d d2, decode_instruction bytes = some i ∧ zeroAmount i.command = false ∧
      a.owner = i.program_id ∧ load_or_init a.data = some d ∧
      applyCommand i.command d = Except.ok d2 ∧ out = encode_record d2 ∧
      a.data.length = 16 := by
  by_cases hw : a.is_writable = false
  · simp [process_instruction, hw] at h
  have hw2 : a.is_writable = true := bool_not_false _ hw
  by_cases ho : a.owner = pid
  · cases hdec : decode_instruction bytes with
    | none => simp [process_instruction, hw2, ho, hdec] at h
    | some i =>
      by_cases hz : zeroAmount i.command = true
      · simp [process_instruction, hw2, ho, hdec, hz] at h
      have hz2 : zeroAmount i.command = false := by
        cases hzz : zeroAmount i.command
        · rfl
        · exact absurd hzz hz
      by_cases ho2 : a.owner = i.program_id
      · have hp2 : pid = i.program_id := ho.symm.trans ho2
        cases hload : load_or_init a.data with
        | none =>
            simp [process_instruction, hw2, ho, hdec, hz2, hp2, hload] at h
        | some d =>
          cases happ : applyCommand i.command d with
          | error e =>
              simp [process_instruction, hw2, ho, hdec, hz2, hp2, hload, happ] at h
          | ok d2 =>
              by_cases hlen : (encode_record d2).length = a.data.length
              · simp [process_instruction, hw2, ho, hdec, hz2, hp2, hload, happ,
                  hlen] at h
                refine ⟨hw2, ho, i, d, d2, rfl, hz2, ho2, rfl, happ, h.symm, ?_⟩
                rw [encode_record_length] at hlen
                omega
              · simp [process_instruction, hw2, ho, hdec, hz2, hp2, hload, happ,
                  hlen] at h
      · have hp2 : ¬ pid = i.program_id := fun hh => ho2 (ho.trans hh)
        simp [process_instruction, hw2, ho, hdec, hz2, hp2] at h
  · simp [process_instruction, hw2, ho] at h

/-- Claim C6: whenever the target account is not marked writable, processing
fails with NotWritable, before any other check (no ownership, decode,
parameter, or balance error can be returned for a non-writable account). -/
theorem C6_not_writable_first (pid : Pubkey) (a : AccountInfo)
    (tl : List AccountInfo) (bytes : List Nat) (h : a.is_writable = false) :
    process_instruction pid (a :: tl) bytes = Except.error PError.NotWritable := by
  simp [process_instruction, h]

/-- Witness for C6: a concrete non-writable account fails with NotWritable. -/
theorem C6_witness :
    process_instruction (List.replicate 32 0)
        [⟨false, List.replicate 32 0, []⟩] []
      = Except.error PError.NotWritable :=
  C6_not_writable_first (List.replicate 32 0) ⟨false, List.replicate 32 0, []⟩ [] [] rfl

/-- Claim C9: decoding the bytes produced by encoding any representable
account record yields the record again. -/
theorem C9_record_round_trip (d : Data) (hn : d.number < U64MOD)
    (hb : d.balance < U64MOD) : decode_record (encode_record d) = some d :=
  decode_encode_record d hn hb

/-- Witness for C9 at a concrete record. -/
theorem C9_witness : decode_record (encode_record ⟨3, 7⟩) = some ⟨3, 7⟩ :=
  C9_record_round_trip ⟨3, 7⟩ (by norm_num [U64MOD]) (by norm_num [U64MOD])

/-- Claim C2: for every account record and Withdraw instruction passing all
validation checks, amount ≤ old balance gives success with balance reduced by
amount, and amount > old balance fails with InsufficientFunds leaving the
persisted balance unchanged. -/
theorem C2_withdraw_correct (pid : Pubkey) (tl : List AccountInfo) (d : Data)
    (amount : Nat) (hpk : pid.length = 32) (hn : d.number < U64MOD)
    (hb : d.balance < U64MOD) (hpos : 0 < amount) (hlt : amount < U64MOD) :
    (amount ≤ d.balance →
      process_instruction pid (⟨true, pid, encode_record d⟩ :: tl)
          (encode_instruction ⟨Command.Withdraw amount, pid⟩)
        = Except.ok (encode_record ⟨d.number, d.balance - amount⟩)) ∧
    (d.balance < amount →
      process_instruction pid (⟨true, pid, encode_record d⟩ :: tl)
          (encode_instruction ⟨Command.Withdraw amount, pid⟩)
        = Except.error PError.InsufficientFunds ∧
      resulting_data ⟨true, pid, encode_record d⟩
          (process_instruction pid (⟨true, pid, encode_record d⟩ :: tl)
            (encode_instruction ⟨Command.Withdraw amount, pid⟩))
        = encode_record d) := by
  have hdec := decode_encode_instruction ⟨Command.Withdraw amount, pid⟩ hpk
    (by simpa [cmdAmountLT] using hlt)
  have hrec := decode_encode_record d hn hb
  have hne : amount ≠ 0 := by omega
  constructor
  · intro hle
    simp [process_instruction, hdec, zeroAmount, hne, load_or_init,
      encode_record_length, hrec, applyCommand, Nat.not_lt.mpr hle]
  · intro hgt
    have hres : process_instruction pid (⟨true, pid, encode_record d⟩ :: tl)
        (encode_instruction ⟨Command.Withdraw amount, pid⟩)
        = Except.error PError.InsufficientFunds := by
      simp [process_instruction, hdec, zeroAmount, hne, load_or_init,
        encode_record_length, hrec, applyCommand, hgt]
    exact ⟨hres, by simp [resulting_data, hres]⟩

/-- Witness for C2: balance 100, Withdraw 50 succeeds and persists balance 50. -/
theorem C2_witness :
    process_instruction (List.replicate 32 0)
        (⟨true, List.replicate 32 0, encode_record ⟨0, 100⟩⟩ :: ([] : List AccountInfo))
        (encode_instruction ⟨Command.Withdraw 50, List.replicate 32 0⟩)
      = Except.ok (encode_record ⟨0, 50⟩) :=
  (C2_withdraw_correct (List.replicate 32 0) [] ⟨0, 100⟩ 50 (by simp)
    (by norm_num [U64MOD]) (by norm_num [U64MOD]) (by norm_num)
    (by norm_num [U64MOD])).1 (by norm_num)

/-- Claim C1 (code behavior at the failing input): with the balance at u64
max, a fully validated Deposit of 1 succeeds and persists a wrapped balance
of 0 — the release-mode balance += amount wraps modulo 2 ^ 64 — instead of
failing with an arithmetic-overflow error and leaving the balance unchanged.
No overflow-checked addition appears anywhere in process_instruction. -/
theorem C1_deposit_overflow_wraps :
    process_instruction (List.replicate 32 0)
        [⟨true, List.replicate 32 0, encode_record ⟨0, U64MOD - 1⟩⟩]
        (encode_instruction ⟨Command.Deposit 1, List.replicate 32 0⟩)
      = Except.ok (encode_record ⟨0, 0⟩) := by
  rfl

/-- Claim C3 (code behavior at the failing input): an empty (zero-length)
slot does decode to the zero-valued record, but a fully validated Deposit of
100 on such an account then aborts in the persistence step, because the
16-byte encoding cannot be copied into a zero-length buffer
(copy_from_slice length mismatch), rather than succeeding with balance 100. -/
theorem C3_empty_slot_deposit_panics :
    load_or_init [] = some ⟨0, 0⟩ ∧
    process_instruction (List.replicate 32 0)
        [⟨true, List.replicate 32 0, []⟩]
        (encode_instruction ⟨Command.Deposit 100, List.replicate 32 0⟩)
      = Except.error PError.Panic :=
  ⟨rfl, rfl⟩

/-- Counterexample for C4: a complete CheckBalance encoding followed by a
trailing byte still decodes successfully — trailing bytes do not make the
decode fail. -/
theorem C4_counterexample :
    decode_instruction
        (encode_instruction ⟨Command.CheckBalance, List.replicate 32 0⟩ ++ [7])
      = some ⟨Command.CheckBalance, List.replicate 32 0⟩ := by
  rfl

/-- Claim C4 (amended): buffers with a wrong tag (4-byte little-endian
variant index at least 3) or a truncated payload fail to decode, and once
the writability and ownership checks pass such a buffer aborts the
instruction with MalformedInstruction; trailing bytes after a complete
encoding are accepted, not rejected. -/
theorem C4_malformed_rejected (bs : List Nat) (pid : Pubkey) (a : AccountInfo)
    (tl : List AccountInfo) (hw : a.is_writable = true) (ho : a.owner = pid) :
    (decode_instruction bs = none →
      process_instruction pid (a :: tl) bs
        = Except.error PError.MalformedInstruction) ∧
    (bs.length < 4 → decode_instruction bs = none) ∧
    (∀ t r, readU32 bs = some (t, r) → 3 ≤ t → decode_instruction bs = none) ∧
    (∀ t r, readU32 bs = some (t, r) → t < 2 → bs.length < 44 →
      decode_instruction bs = none) ∧
    (∀ t r, readU32 bs = some (t, r) → t = 2 → bs.length < 36 →
      decode_instruction bs = none) := by
  refine ⟨?_, ?_, ?_, ?_, ?_⟩
  · intro hdec
    simp [process_instruction, hw, ho, hdec]
  · intro hlen
    simp [decode_instruction, readU32_eq_none bs hlen]
  · intro t r h3 hge
    have h0 : ¬ t = 0 := by omega
    have h1 : ¬ t = 1 := by omega
    have h2 : ¬ t = 2 := by omega
    simp [decode_instruction, h3, h0, h1, h2]
  · intro t r h4 ht hlen
    have hr : bs.length = r.length + 4 := readU32_length bs t r h4
    by_cases h8 : r.length < 8
    · have hnone := readU64_eq_none r h8
      interval_cases t <;> simp [decode_instruction, h4, hnone]
    · obtain ⟨v, r2, h64⟩ := readU64_total r (by omega)
      have hr2 : r.length = r2.length + 8 := readU64_length r v r2 h64
      have hpk : readPubkey r2 = none := readPubkey_eq_none r2 (by omega)
      interval_cases t <;> simp [decode_instruction, h4, h64, hpk]
  · intro t r h5 ht hlen
    subst ht
    have hr : bs.length = r.length + 4 := readU32_length bs 2 r h5
    have hpk : readPubkey r = none := readPubkey_eq_none r (by omega)
    simp [decode_instruction, h5, hpk]

/-- Witness for C4: a concrete wrong-tag buffer fails with
MalformedInstruction. -/
theorem C4_witness :
    process_instruction (List.replicate 32 0)
        [⟨true, List.replicate 32 0, []⟩] [5, 0, 0, 0]
      = Except.error PError.MalformedInstruction :=
  (C4_malformed_rejected [5, 0, 0, 0] (List.replicate 32 0)
    ⟨true, List.replicate 32 0, []⟩ [] rfl rfl).1 (by rfl)

/-- Counterexample for C5: an instruction whose intended owner differs from
the account owner, but whose amount is zero, fails with InvalidParameters,
not IncorrectOwner — the authorization check runs after parameter
validation. -/
theorem C5_counterexample :
    process_instruction (List.replicate 32 0)
        [⟨true, List.replicate 32 0, encode_record ⟨0, 5⟩⟩]
        (encode_instruction ⟨Command.Deposit 0, List.replicate 32 1⟩)
      = Except.error PError.InvalidParameters ∧
    (List.replicate 32 1 : Pubkey) ≠ List.replicate 32 0 ∧
    PError.InvalidParameters ≠ PError.IncorrectOwner :=
  ⟨rfl, by decide, by decide⟩

/-- Claim C5 (amended): for every instruction that passes the writability,
program-ownership, decode and parameter checks, an intended owner different
from the account owner fails with IncorrectOwner and leaves the account
bytes unchanged. -/
theorem C5_auth_mismatch_rejected (pid pk : Pubkey) (a : AccountInfo)
    (tl : List AccountInfo) (cmd : Command)
    (hw : a.is_writable = true) (ho : a.owner = pid) (hpk : pk.length = 32)
    (hparams : cmdParamsOK cmd) (hmm : pk ≠ a.owner) :
    process_instruction pid (a :: tl) (encode_instruction ⟨cmd, pk⟩)
      = Except.error PError.IncorrectOwner ∧
    resulting_data a
        (process_instruction pid (a :: tl) (encode_instruction ⟨cmd, pk⟩))
      = a.data := by
  have hlt : cmdAmountLT cmd := by
    cases cmd <;> simp_all [cmdParamsOK, cmdAmountLT]
  have hdec := decode_encode_instruction ⟨cmd, pk⟩ hpk hlt
  have hz : zeroAmount cmd = false := by
    cases cmd <;> simp [zeroAmount, cmdParamsOK] at hparams ⊢ <;> omega
  have hp : ¬ pid = pk := by
    intro hh
    apply hmm
    rw [ho, hh]
  have hres : process_instruction pid (a :: tl) (encode_instruction ⟨cmd, pk⟩)
      = Except.error PError.IncorrectOwner := by
    simp [process_instruction, hw, ho, hdec, hz, hp]
  exact ⟨hres, by simp [resulting_data, hres]⟩

/-- Witness for C5: a concrete mismatched intended owner fails with
IncorrectOwner once the earlier checks pass. -/
theorem C5_witness :
    process_instruction (List.replicate 32 0)
        [⟨true, List.replicate 32 0, encode_record ⟨0, 5⟩⟩]
        (encode_instruction ⟨Command.Deposit 7, List.replicate 32 1⟩)
      = Except.error PError.IncorrectOwner :=
  (C5_auth_mismatch_rejected (List.replicate 32 0) (List.replicate 32 1)
    ⟨true, List.replicate 32 0, encode_record ⟨0, 5⟩⟩ [] (Command.Deposit 7)
    rfl rfl (by simp) (by norm_num [cmdParamsOK, U64MOD]) (by decide)).1

/-- Counterexample for C7: a zero-amount Deposit on a non-writable account
fails with NotWritable, not InvalidParameters — the writability check runs
first. -/
theorem C7_counterexample :
    process_instruction (List.replicate 32 0)
        [⟨false, List.replicate 32 0, encode_record ⟨0, 5⟩⟩]
        (encode_instruction ⟨Command.Deposit 0, List.replicate 32 0⟩)
      = Except.error PError.NotWritable ∧
    PError.NotWritable ≠ PError.InvalidParameters :=
  ⟨rfl, by decide⟩

/-- Claim C7 (amended): a zero-amount Deposit or Withdraw never succeeds and
never changes the persisted bytes, and whenever the writability and
program-ownership checks pass it fails with InvalidParameters. -/
theorem C7_zero_amount_rejected (pid pk : Pubkey) (a : AccountInfo)
    (tl : List AccountInfo) (cmd : Command) (hpk : pk.length = 32)
    (hz : cmd = Command.Deposit 0 ∨ cmd = Command.Withdraw 0) :
    (∀ out, process_instruction pid (a :: tl) (encode_instruction ⟨cmd, pk⟩)
      ≠ Except.ok out) ∧
    resulting_data a
        (process_instruction pid (a :: tl) (encode_instruction ⟨cmd, pk⟩))
      = a.data ∧
    (a.is_writable = true → a.owner = pid →
      process_instruction pid (a :: tl) (encode_instruction ⟨cmd, pk⟩)
        = Except.error PError.InvalidParameters) := by
  have hdec := decode_encode_instruction ⟨cmd, pk⟩ hpk
    (by rcases hz with rfl | rfl <;> norm_num [cmdAmountLT, U64MOD])
  have hzz : zeroAmount cmd = true := by rcases hz with rfl | rfl <;> rfl
  by_cases hw : a.is_writable = false
  · have hres : process_instruction pid (a :: tl) (encode_instruction ⟨cmd, pk⟩)
        = Except.error PError.NotWritable := by
      simp [process_instruction, hw]
    refine ⟨by simp [hres], by simp [resulting_data, hres], ?_⟩
    intro h1 h2
    exact absurd (h1.symm.trans hw) (by decide)
  · have hw2 := bool_not_false _ hw
    by_cases ho : a.owner = pid
    · have hres : process_instruction pid (a :: tl) (encode_instruction ⟨cmd, pk⟩)
          = Except.error PError.InvalidParameters := by
        simp [process_instruction, hw2, ho, hdec, hzz]
      exact ⟨by simp [hres], by simp [resulting_data, hres], fun h1 h2 => hres⟩
    · have hres : process_instruction pid (a :: tl) (encode_instruction ⟨cmd, pk⟩)
          = Except.error PError.IncorrectOwner := by
        simp [process_instruction, hw2, ho]
      exact ⟨by simp [hres], by simp [resulting_data, hres],
        fun h1 h2 => absurd h2 ho⟩

/-- Witness for C7: a concrete zero-amount Deposit on a writable owned
account fails with InvalidParameters. -/
theorem C7_witness :
    process_instruction (List.replicate 32 0)
        [⟨true, List.replicate 32 0, encode_record ⟨0, 5⟩⟩]
        (encode_instruction ⟨Command.Deposit 0, List.replicate 32 0⟩)
      = Except.error PError.InvalidParameters :=
  (C7_zero_amount_rejected (List.replicate 32 0) (List.replicate 32 0)
    ⟨true, List.replicate 32 0, encode_record ⟨0, 5⟩⟩ [] (Command.Deposit 0)
    (by simp) (Or.inl rfl)).2.2 rfl rfl

/-- Claim C8: a CheckBalance instruction that succeeds writes back exactly
the prior bytes, so the persisted record keeps both its balance and its
counter. -/
theorem C8_check_balance_preserves (pid pk : Pubkey) (a : AccountInfo)
    (tl : List AccountInfo) (bytes out : List Nat)
    (hb : ∀ b ∈ a.data, b < 256)
    (hdec : decode_instruction bytes = some ⟨Command.CheckBalance, pk⟩)
    (h : process_instruction pid (a :: tl) bytes = Except.ok out) :
    out = a.data ∧ decode_record out = decode_record a.data := by
  obtain ⟨hw, ho, i, d, d2, hdec2, hz, ho2, hload, happ, hout, hlen16⟩ :=
    process_ok_inv pid a tl bytes out h
  have hi : i = ⟨Command.CheckBalance, pk⟩ := Option.some.inj (hdec2.symm.trans hdec)
  subst hi
  have hd2 : d = d2 := by
    simpa [applyCommand, Except.ok.injEq] using happ
  subst hd2
  unfold load_or_init at hload
  rw [if_neg (by omega)] at hload
  obtain ⟨hn, hbal, henc⟩ := decode_record_bytes a.data d hload hb
  have hout2 : out = a.data := by rw [hout, henc hlen16]
  exact ⟨hout2, by rw [hout2]⟩

/-- Witness for C8: a concrete successful CheckBalance on balance 150 writes
back the same 16 bytes. -/
theorem C8_witness :
    encode_record ⟨0, 150⟩ = encode_record ⟨0, 150⟩ ∧
    decode_record (encode_record ⟨0, 150⟩)
      = decode_record (encode_record ⟨0, 150⟩) :=
  C8_check_balance_preserves (List.replicate 32 0) (List.replicate 32 0)
    ⟨true, List.replicate 32 0, encode_record ⟨0, 150⟩⟩ []
    (encode_instruction ⟨Command.CheckBalance, List.replicate 32 0⟩)
    (encode_record ⟨0, 150⟩) (by decide) rfl rfl

/-- Claim C10: every successfully completed instruction preserves the
counter field: the persisted record decodes to a record whose number equals
the loaded record's number, and the loaded number is zero when the slot was
empty. -/
theorem C10_counter_preserved (pid : Pubkey) (a : AccountInfo)
    (tl : List AccountInfo) (bytes out : List Nat)
    (hb : ∀ b ∈ a.data, b < 256)
    (h : process_instruction pid (a :: tl) bytes = Except.ok out) :
    ∃ dOld dNew, load_or_init a.data = some dOld ∧
      decode_record out = some dNew ∧ dNew.number = dOld.number ∧
      (a.data.length = 0 → dOld.number = 0) := by
  obtain ⟨hw, ho, i, d, d2, hdec, hz, ho2, hload, happ, hout, hlen16⟩ :=
    process_ok_inv pid a tl bytes out h
  obtain ⟨hn, hbal, -⟩ := load_or_init_bytes a.data d hload hb
  have hnum := applyCommand_number i.command d d2 happ
  have hb2 := applyCommand_balance_lt i.command d d2 hbal happ
  have hn2 : d2.number < U64MOD := by rw [hnum]; exact hn
  refine ⟨d, d2, hload, ?_, hnum, ?_⟩
  · rw [hout]
    exact decode_encode_record d2 hn2 hb2
  · intro h0
    omega

/-- Witness for C10: a concrete successful Deposit keeps the counter at 4. -/
theorem C10_witness :
    ∃ dOld dNew, load_or_init (encode_record ⟨4, 10⟩) = some dOld ∧
      decode_record (encode_record ⟨4, 15⟩) = some dNew ∧
      dNew.number = dOld.number ∧
      ((encode_record ⟨4, 10⟩).length = 0 → dOld.number = 0) :=
  C10_counter_preserved (List.replicate 32 0)
    ⟨true, List.replicate 32 0, encode_record ⟨4, 10⟩⟩ []
    (encode_instruction ⟨Command.Deposit 5, List.replicate 32 0⟩)
    (encode_record ⟨4, 15⟩) (by decide) rfl

end Ledger
